import Mathlib

/-!
Verification of the lazy-git-checkout core (src/core.rs) against its
natural-language specification.

The Rust source is shallowly embedded: Rust `String` is modelled as Lean
`String` (with character-level operations carried out on `String.toList`),
fallible operations return `Except`/`Option`, `panic!`/`unwrap` failures are
modelled as a distinguished outcome, and the effects of the git worker
(subprocess invocations, channel sends) are modelled by an explicit process
runner `GitRunner : List String → ProcResult` together with traces that record
the messages sent and the argument vectors invoked, in order.
-/

/-! ## Character-list string primitives (models of Rust `str` operations) -/

/-- Model of Rust `str::starts_with` on character lists: `prefixAt pat s`
is `true` iff `pat` is a prefix of `s`. -/
def prefixAt : List Char → List Char → Bool
  | [], _ => true
  | _ :: _, [] => false
  | a :: ps, b :: ss => a = b && prefixAt ps ss

/-- Model of Rust `str::contains` on character lists: `hasSub pat s` is
`true` iff `pat` occurs as a contiguous substring of `s`. -/
def hasSub (pat : List Char) : List Char → Bool
  | [] => pat.isEmpty
  | c :: rest => prefixAt pat (c :: rest) || hasSub pat rest

/-- Model of Rust `str::split(c)`: split a character list at every occurrence
of `c`.  Always returns at least one piece (so indexing the first element of
the result, as `get_last_stashed` does with `[0]`, cannot fail). -/
def splitChar (c : Char) : List Char → List (List Char)
  | [] => [[]]
  | a :: rest =>
    match splitChar c rest with
    | [] => [[]]
    | l :: ls => if a = c then [] :: l :: ls else (a :: l) :: ls

/-- Strip a single trailing carriage return, as Rust's `str::lines` does for
each newline-terminated line. -/
def stripCR (l : List Char) : List Char :=
  match l.getLast? with
  | some c => if c = '\r' then l.dropLast else l
  | none => l

/-- Model of Rust `str::lines`: split at `'\n'`; a trailing newline produces
no final empty line; each newline-terminated line has one trailing `'\r'`
stripped; a final unterminated line is kept verbatim. -/
def rustLinesList (cs : List Char) : List (List Char) :=
  if cs = [] then []
  else
    let parts := splitChar '\n' cs
    match parts.getLast? with
    | some [] => parts.dropLast.map stripCR
    | _ => parts.dropLast.map stripCR ++ [parts.getLastD []]

/-- Fuel-indexed model of Rust `str::trim_start_matches(pat)`: repeatedly
strip `pat` from the front while it is a prefix.  The fuel only bounds the
recursion; `s.length` steps are always enough for a non-empty pattern. -/
def dropPrefixAllFuel : Nat → List Char → List Char → List Char
  | 0, _, s => s
  | fuel + 1, pat, s =>
    if prefixAt pat s then dropPrefixAllFuel fuel pat (s.drop pat.length) else s

/-- Model of Rust `str::trim_start_matches(pat)` (for non-empty `pat`):
removes every leading repetition of `pat`. -/
def dropPrefixAll (pat s : List Char) : List Char :=
  dropPrefixAllFuel s.length pat s

/-- Model of Rust `str::trim` (used on `git rev-parse` output): drop
whitespace from both ends. -/
def rustTrim (s : String) : String :=
  String.mk
    (((s.toList.dropWhile Char.isWhitespace).reverse.dropWhile
        Char.isWhitespace).reverse)

/-- Lines followed by a `'\n'` terminator each, concatenated: the character
stream a sequence of `write_all("…\n")` calls produces. -/
def joinNl : List (List Char) → List Char
  | [] => []
  | l :: ls => l ++ '\n' :: joinNl ls

/-! ## Data model: Branch / Project / DB (src/core.rs lines 8–58) -/

/-- `struct Branch { name: String }` -/
structure Branch where
  name : String
deriving DecidableEq, Repr

/-- `struct Project { path: String, branches: Vec<Branch> }` -/
structure Project where
  path : String
  branches : List Branch
deriving DecidableEq, Repr

/-- `Project::new(path)` -/
def Project.new (path : String) : Project := ⟨path, []⟩

/-- `Project::add_branch`: pushes at the end. -/
def Project.add_branch (p : Project) (branch : String) : Project :=
  { p with branches := p.branches ++ [⟨branch⟩] }

/-- `Project::remove_branch`: retains branches whose name differs. -/
def Project.remove_branch (p : Project) (branch : String) : Project :=
  { p with branches := p.branches.filter (fun b => b.name != branch) }

/-- `struct DB { projects: Vec<Project> }` -/
structure DB where
  projects : List Project
deriving DecidableEq, Repr

/-- `DB::new()` -/
def DB.new : DB := ⟨[]⟩

/-- `DB::add_project`: pushes at the end, with no uniqueness check. -/
def DB.add_project (db : DB) (project : Project) : DB :=
  ⟨db.projects ++ [project]⟩

/-- `DB::remove_project`: retains projects whose path differs. -/
def DB.remove_project (db : DB) (path : String) : DB :=
  ⟨db.projects.filter (fun p => p.path != path)⟩

/-- Pure model of `DB::get_project_mut(path)` followed by `add_branch`:
append `branch` to the first project whose path is `path`; `none` models the
`unwrap`/`panic!` when no project matches. -/
def addBranchAux : List Project → String → String → Option (List Project)
  | [], _, _ => none
  | p :: ps, path, b =>
    if p.path = path then some (p.add_branch b :: ps)
    else (addBranchAux ps path b).map (p :: ·)

/-- `db.get_project_mut(path)` + `add_branch(branch)` at the `DB` level. -/
def DB.addBranchFirst (db : DB) (path branch : String) : Option DB :=
  (addBranchAux db.projects path branch).map DB.mk

/-- `PROJECT_PATH_DELIMITER = ";;;;"` as characters. -/
def delimChars : List Char := [';', ';', ';', ';']

/-! ## Persistence (src/core.rs lines 60–104) -/

/-- The bytes `write_to_disk` emits for one project's branches: each branch
name followed by a newline. -/
def branchChunk : List Branch → List Char
  | [] => []
  | b :: bs => b.name.toList ++ '\n' :: branchChunk bs

/-- The bytes `write_to_disk` emits for one project: the delimiter, the path
and a newline, then the branch lines. -/
def projectChunk (p : Project) : List Char :=
  delimChars ++ p.path.toList ++ '\n' :: branchChunk p.branches

/-- The bytes `write_to_disk` emits for a project list, in order. -/
def serializeProjects : List Project → List Char
  | [] => []
  | p :: ps => projectChunk p ++ serializeProjects ps

/-- `DB::write_to_disk`, modelled as the full file content it replaces the
on-disk file with. -/
def DB.write_to_disk (db : DB) : String :=
  String.mk (serializeProjects db.projects)

/-- The parsing loop of `DB::load_from_disk` over the file's lines, carrying
the current project `path` (initially empty) and the accumulated `db`.
`none` models the `panic!("Invalid file format")` branches. -/
def loadLoop : List (List Char) → List Char → DB → Option DB
  | [], _, db => some db
  | line :: rest, path, db =>
    if prefixAt delimChars line then
      let path' := dropPrefixAll delimChars line
      loadLoop rest path' (db.add_project (Project.new (String.mk path')))
    else if path ≠ [] then
      match db.addBranchFirst (String.mk path) (String.mk line) with
      | some db' => loadLoop rest path db'
      | none => none
    else none

/-- The result of `std::fs::read_to_string(DB_PATH)`: the file's content, a
`NotFound` error, or another I/O error. -/
inductive ReadResult where
  | found (content : String)
  | notFound
  | ioFail (msg : String)
deriving DecidableEq, Repr

/-- `DB::read_db_file`: `NotFound` yields an empty string (the file will be
written later); other I/O errors propagate. -/
def DB.read_db_file (r : ReadResult) : Except String String :=
  match r with
  | .found content => .ok content
  | .notFound => .ok ""
  | .ioFail msg => .error msg

/-- Outcome of `DB::load_from_disk`: a registry, a propagated error, or the
`panic!("Invalid file format")`. -/
inductive LoadResult where
  | ok (db : DB)
  | err (msg : String)
  | panicked
deriving DecidableEq, Repr

/-- `DB::load_from_disk`, as a function of the underlying file read. -/
def DB.load_from_disk (r : ReadResult) : LoadResult :=
  match DB.read_db_file r with
  | .error e => .err e
  | .ok content =>
    match loadLoop (rustLinesList content.toList) [] DB.new with
    | some db => .ok db
    | none => .panicked

/-! ## Well-formedness conditions under which persistence round-trips -/

/-- A branch name the line-oriented format can represent faithfully: no
embedded newline, no trailing carriage return, and it does not begin with the
project-path delimiter. -/
def goodName (s : String) : Prop :=
  '\n' ∉ s.toList ∧ s.toList.getLast? ≠ some '\r' ∧
    prefixAt delimChars s.toList = false

/-- A project path the format can represent faithfully: non-empty and a
`goodName`. -/
def goodPath (s : String) : Prop := s.toList ≠ [] ∧ goodName s

/-- A registry the format can represent faithfully: every path and branch
name is representable, and project paths are pairwise distinct. -/
def goodDB (db : DB) : Prop :=
  (∀ p ∈ db.projects, goodPath p.path ∧ ∀ b ∈ p.branches, goodName b.name)
    ∧ (db.projects.map Project.path).Nodup

instance (s : String) : Decidable (goodName s) := by
  unfold goodName; infer_instance

instance (s : String) : Decidable (goodPath s) := by
  unfold goodPath; infer_instance

instance (db : DB) : Decidable (goodDB db) := by
  unfold goodDB; infer_instance

/-! ## Subprocess model (src/core.rs `run_git_command`, lines 357–367) -/

/-- The bytes a subprocess produced on one of its output streams, abstracted
to whether they decode as UTF-8 and, when they do, to which string
(`String::from_utf8` either succeeds with the string or fails). -/
inductive Utf8Bytes where
  | valid (s : String)
  | invalid
deriving DecidableEq, Repr

/-- `std::process::Output`: exit status success flag plus captured stdout and
stderr. -/
structure Output where
  success : Bool
  stdout : Utf8Bytes
  stderr : Utf8Bytes
deriving DecidableEq, Repr

/-- Result of `Command::new("git").args(args).output()`: either the spawn
itself failed with an I/O error, or the process ran to completion. -/
inductive ProcResult where
  | spawnFail (msg : String)
  | ran (output : Output)
deriving DecidableEq, Repr

/-- The environment of the worker: what the OS returns for each `git`
argument vector invoked in the project directory. -/
def GitRunner := List String → ProcResult

/-- The `anyhow::Error` values the worker can produce. -/
inductive GErr where
  | ioFail (msg : String)
  | gitFailed (stderr : String)
  | badUtf8
deriving DecidableEq, Repr

/-- `GitWorker::run_git_command`: propagate a spawn failure; on a non-zero
exit decode stderr (a decode failure is its own error) and fail with the
stderr text; otherwise return the captured output. -/
def run_git_command (runner : GitRunner) (command : List String) :
    Except GErr Output :=
  match runner command with
  | .spawnFail msg => .error (.ioFail msg)
  | .ran output =>
    if !output.success then
      match output.stderr with
      | .valid error => .error (.gitFailed error)
      | .invalid => .error .badUtf8
    else .ok output

/-- The argument vector of the current-branch query. -/
def revParseArgs : List String := ["rev-parse", "--abbrev-ref", "HEAD"]

/-- `GitWorker::get_current_branch`: `git rev-parse --abbrev-ref HEAD`,
decode stdout, trim. -/
def get_current_branch (runner : GitRunner) : Except GErr String :=
  match run_git_command runner revParseArgs with
  | .error e => .error e
  | .ok output =>
    match output.stdout with
    | .valid branch => .ok (rustTrim branch)
    | .invalid => .error .badUtf8

/-! ## Worker messages and commands (src/core.rs lines 210–229) -/

/-- `enum CheckoutStatus` (the `Failed` payload is the worker's error). -/
inductive CheckoutStatus where
  | Progress (s : String)
  | Done
  | Failed (e : GErr)
deriving DecidableEq, Repr

instance {ε α : Type} [DecidableEq ε] [DecidableEq α] :
    DecidableEq (Except ε α) := fun x y =>
  match x, y with
  | .ok a, .ok b =>
    match decEq a b with
    | isTrue h => isTrue (by rw [h])
    | isFalse h => isFalse (fun hc => h (by injection hc))
  | .ok _, .error _ => isFalse (fun hc => Except.noConfusion hc)
  | .error _, .ok _ => isFalse (fun hc => Except.noConfusion hc)
  | .error a, .error b =>
    match decEq a b with
    | isTrue h => isTrue (by rw [h])
    | isFalse h => isFalse (fun hc => h (by injection hc))

/-- `enum GitResponse`. -/
inductive GitResponse where
  | Checkout (status : CheckoutStatus)
  | AllProjectBranches (result : Except GErr (List String))
  | GetCurrentBranch (result : Except GErr String)
deriving DecidableEq, Repr

/-- `enum GitCommand`, with the reply channels elided (they are modelled by
the traces the worker produces). -/
inductive GitCommand where
  | CheckoutCmd (branch : String)
  | AllProjectBranchesCmd
  | GetCurrentBranchCmd
deriving DecidableEq, Repr

/-- `GitWorker::send_output_or_err`: the single message this call sends on
the progress channel — the decoded stdout as `Progress`, or `Failed` with
either the command's error or the stdout decode failure. -/
def send_output_or_err (output : Except GErr Output) : CheckoutStatus :=
  match output with
  | .ok output =>
    match output.stdout with
    | .valid data => .Progress data
    | .invalid => .Failed .badUtf8
  | .error e => .Failed e

/-- `GitWorker::get_last_stashed(branch)`: run `git stash list` (the result
and the stdout decoding are both `unwrap`ped — the outer `none` models that
panic), split into lines, keep lines containing `"lazy-git-checkout:<branch>"`,
take the first, and return its text before the first `':'`. -/
def get_last_stashed (runner : GitRunner) (branch : String) :
    Option (Option String) :=
  match run_git_command runner ["stash", "list"] with
  | .error _ => none
  | .ok output =>
    match output.stdout with
    | .invalid => none
    | .valid stashes =>
      let stash_name := "lazy-git-checkout:" ++ branch
      let matched := (splitChar '\n' stashes.toList).filter
        (fun s => hasSub stash_name.toList s)
      match matched.head? with
      | none => some none
      | some last_stash =>
        some (some (String.mk ((splitChar ':' last_stash).headD [])))

/-- What one `GitWorker::checkout` run did: the `GitResponse::Checkout`
payloads sent on the progress channel in order, the `git` argument vectors
invoked in order, and whether the worker panicked (an `unwrap` failed)
instead of finishing normally. -/
structure CheckoutTrace where
  msgs : List CheckoutStatus
  invoked : List (List String)
  panicked : Bool
deriving DecidableEq, Repr

/-- `GitWorker::checkout(tx, branch)`, as the trace it produces:
current-branch lookup failure sends `Failed` and returns; otherwise the
stash and checkout steps each run and send their message via
`send_output_or_err` (which never stops the sequence), then
`get_last_stashed(branch)` either panics, finds nothing, or names a stash
that is popped; finally `Done` is sent. -/
def GitWorker.checkout (runner : GitRunner) (branch : String) : CheckoutTrace :=
  match get_current_branch runner with
  | .error e => ⟨[.Failed e], [revParseArgs], false⟩
  | .ok cur_branch =>
    let stash_name := "lazy-git-checkout:" ++ cur_branch
    let m1 := send_output_or_err (run_git_command runner ["stash", "-m", stash_name])
    let m2 := send_output_or_err (run_git_command runner ["checkout", branch])
    match get_last_stashed runner branch with
    | none =>
      ⟨[m1, m2],
       [revParseArgs, ["stash", "-m", stash_name], ["checkout", branch],
        ["stash", "list"]], true⟩
    | some none =>
      ⟨[m1, m2, .Done],
       [revParseArgs, ["stash", "-m", stash_name], ["checkout", branch],
        ["stash", "list"]], false⟩
    | some (some last_stashed) =>
      let m3 := send_output_or_err
        (run_git_command runner ["stash", "pop", last_stashed])
      ⟨[m1, m2, m3, .Done],
       [revParseArgs, ["stash", "-m", stash_name], ["checkout", branch],
        ["stash", "list"], ["stash", "pop", last_stashed]], false⟩

/-- The fixed progress line `GitWorker::run` sends on receipt of a
`Checkout` command, before calling `GitWorker::checkout`. -/
def stashingMsg : CheckoutStatus := .Progress "Stashing current changes..."

/-- `GitWorker::run` handling one `Checkout(branch)` command: the initial
progress line followed by the checkout trace. -/
def GitWorker.handleCheckout (runner : GitRunner) (branch : String) :
    CheckoutTrace :=
  let t := GitWorker.checkout runner branch
  ⟨stashingMsg :: t.msgs, t.invoked, t.panicked⟩

/-- The `git stash list` invocation inside `get_last_stashed` hits one of its
two `unwrap`ed failure modes: the command fails (spawn error or non-zero
exit) or its stdout is not valid UTF-8. -/
def stashListFails (runner : GitRunner) : Bool :=
  match runner ["stash", "list"] with
  | .spawnFail _ => true
  | .ran output =>
    !output.success ||
      (match output.stdout with
       | .invalid => true
       | .valid _ => false)

/-! ## GitHandle façade (src/core.rs `Git`, lines 107–208) -/

/-- `struct Git`: the project path, the command channel to the worker
(`none` = worker not spawned; `some q` = spawned, with `q` the commands
queued and not yet consumed), and the checkout progress channel (`checkout_rx
= none` = no session open; `some msgs` = session open with the messages the
worker has sent and the caller has not yet received) plus the retained
sender half. -/
structure Git where
  path : String
  tx : Option (List GitCommand)
  checkout_rx : Option (List GitResponse)
  checkout_tx : Bool
deriving DecidableEq, Repr

/-- `Git::checkout(branch)`: reject when a session is already open;
otherwise open a fresh progress stream, then enqueue `Checkout` to the
worker (erroring if the worker was never spawned); returns without waiting
for any progress. -/
def Git.checkout (g : Git) (branch : String) : Git × Option String :=
  if g.checkout_rx.isSome then (g, some "checkout already in progress")
  else
    let g1 := { g with checkout_rx := some [], checkout_tx := true }
    match g1.tx with
    | none => (g1, some "worker not spawned")
    | some q => ({ g1 with tx := some (q ++ [.CheckoutCmd branch]) }, none)

/-- `Git::poll_checkout_status`: `Ok(None)` when no session is open; with a
session open, receive the next message (the outer `none` models the caller
suspending on an empty channel): `Progress` is passed through with the
session kept, `Done`/`Failed` are passed through after clearing both halves
of the session, and any non-`Checkout` response yields `Ok(None)` with the
session kept. -/
def Git.poll_checkout_status (g : Git) :
    Option (Git × Option CheckoutStatus) :=
  match g.checkout_rx with
  | none => some (g, none)
  | some msgs =>
    match msgs with
    | [] => none
    | m :: rest =>
      match m with
      | .Checkout st =>
        match st with
        | .Progress s =>
          some ({ g with checkout_rx := some rest }, some (.Progress s))
        | .Done =>
          some ({ g with checkout_rx := none, checkout_tx := false },
                some .Done)
        | .Failed e =>
          some ({ g with checkout_rx := none, checkout_tx := false },
                some (.Failed e))
      | _ => some ({ g with checkout_rx := some rest }, none)

/-! ## Registry operations and project resolution (src/core.rs 382–471) -/

/-- Top-level `add_project(path)` =
`load_from_disk` → `DB::add_project(Project::new(path))` → `write_to_disk`,
modelled as the pure registry transformation it performs. -/
def add_project (db : DB) (path : String) : DB :=
  db.add_project (Project.new path)

/-- `get_project_from_path`, after the `cwd` has been canonicalized by the
OS: return the first registered project whose path is a string prefix of the
canonicalized path, or the `NotFound`-style error. -/
def get_project_from_path (db : DB) (canonical_path : String) :
    Except String Project :=
  match db.projects.find?
      (fun p => prefixAt p.path.toList canonical_path.toList) with
  | some proj => .ok proj
  | none => .error "no project found in path"

/-! ## Concrete environments used as counterexamples and witnesses -/

/-- A runner on which the current branch is `main`, the stash step succeeds,
the `checkout dev` step fails, and the stash list holds one entry tagged for
the target branch `dev`. -/
def runnerCheckoutFails : GitRunner := fun args =>
  if args = revParseArgs then .ran ⟨true, .valid "main\n", .valid ""⟩
  else if args = ["stash", "-m", "lazy-git-checkout:main"] then
    .ran ⟨true, .valid "Saved working directory", .valid ""⟩
  else if args = ["checkout", "dev"] then
    .ran ⟨false, .valid "", .valid "pathspec error"⟩
  else if args = ["stash", "list"] then
    .ran ⟨true, .valid "myref: On main: lazy-git-checkout:dev", .valid ""⟩
  else if args = ["stash", "pop", "myref"] then
    .ran ⟨true, .valid "popped", .valid ""⟩
  else .spawnFail "unexpected"

/-- A runner on which everything succeeds, but the only stash-list entry is
tagged with the *current* branch `main` (the step-2 tag), not with the
target branch `dev`. -/
def runnerStaleStash : GitRunner := fun args =>
  if args = revParseArgs then .ran ⟨true, .valid "main\n", .valid ""⟩
  else if args = ["stash", "-m", "lazy-git-checkout:main"] then
    .ran ⟨true, .valid "Saved working directory", .valid ""⟩
  else if args = ["checkout", "dev"] then
    .ran ⟨true, .valid "Switched to branch dev", .valid ""⟩
  else if args = ["stash", "list"] then
    .ran ⟨true, .valid "ref0: On main: lazy-git-checkout:main", .valid ""⟩
  else .spawnFail "unexpected"

/-- A runner on which every step of a `checkout dev` succeeds and the stash
list's newest entry is tagged for the target branch `dev`. -/
def runnerAllOk : GitRunner := fun args =>
  if args = revParseArgs then .ran ⟨true, .valid "main\n", .valid ""⟩
  else if args = ["stash", "-m", "lazy-git-checkout:main"] then
    .ran ⟨true, .valid "Saved working directory", .valid ""⟩
  else if args = ["checkout", "dev"] then
    .ran ⟨true, .valid "Switched to branch dev", .valid ""⟩
  else if args = ["stash", "list"] then
    .ran ⟨true,
      .valid "ref0: On main: lazy-git-checkout:dev\nref1: unrelated entry",
      .valid ""⟩
  else if args = ["stash", "pop", "ref0"] then
    .ran ⟨true, .valid "Dropped ref0", .valid ""⟩
  else .spawnFail "unexpected"

/-- A runner on which the initial `git rev-parse --abbrev-ref HEAD` fails. -/
def runnerRevParseFails : GitRunner := fun args =>
  if args = revParseArgs then
    .ran ⟨false, .valid "", .valid "fatal: not a git repository"⟩
  else .spawnFail "unexpected"

/-- A runner on which the first three steps succeed but `git stash list`
exits non-zero. -/
def runnerListFails : GitRunner := fun args =>
  if args = revParseArgs then .ran ⟨true, .valid "main\n", .valid ""⟩
  else if args = ["stash", "-m", "lazy-git-checkout:main"] then
    .ran ⟨true, .valid "Saved working directory", .valid ""⟩
  else if args = ["checkout", "dev"] then
    .ran ⟨true, .valid "Switched to branch dev", .valid ""⟩
  else if args = ["stash", "list"] then
    .ran ⟨false, .valid "", .valid "stash list failed"⟩
  else .spawnFail "unexpected"

/-- A registry whose single project has a branch name that begins with the
project-path delimiter, so the persisted form misparses it as a header. -/
def dbDelimBranch : DB := ⟨[⟨"p", [⟨";;;;x"⟩]⟩]⟩

/-- A small well-formed registry: two projects, two branches each. -/
def dbTwoTwo : DB :=
  ⟨[⟨"/home/user/alpha", [⟨"main"⟩, ⟨"feature-1"⟩]⟩,
    ⟨"/home/user/beta", [⟨"develop"⟩, ⟨"hotfix"⟩]⟩]⟩

/-- A registry holding a single project at path `p` with no branches. -/
def dbSingleP : DB := ⟨[⟨"p", []⟩]⟩

/-- A registry holding a single project at `/home/user/proj`. -/
def dbProj : DB := ⟨[⟨"/home/user/proj", []⟩]⟩

/-- A registry holding a single project at `/a/b`. -/
def dbAB : DB := ⟨[⟨"/a/b", []⟩]⟩

/-- The persisted file's logical lines for a project list: for each project
a header line (the delimiter followed by the path), then its branch-name
lines. -/
def lineListChars : List Project → List (List Char)
  | [] => []
  | p :: ps =>
    (delimChars ++ p.path.toList)
      :: (p.branches.map (fun b => b.name.toList) ++ lineListChars ps)

/-! ## Helper lemmas -/

theorem head?_filter_eq_find? {α : Type} (p : α → Bool) (l : List α) :
    (l.filter p).head? = l.find? p := by
  induction l with
  | nil => rfl
  | cons a t ih =>
    by_cases h : p a
    · simp [List.filter_cons, List.find?_cons, h]
    · simp [List.filter_cons, List.find?_cons, h, ih]

theorem send_output_or_err_ne_done (r : Except GErr Output) :
    send_output_or_err r ≠ CheckoutStatus.Done := by
  unfold send_output_or_err
  cases r with
  | error e => simp
  | ok out => cases h : out.stdout <;> simp [h]

theorem get_last_stashed_none_of_fails (runner : GitRunner) (branch : String)
    (hf : stashListFails runner = true) :
    get_last_stashed runner branch = none := by
  unfold stashListFails at hf
  unfold get_last_stashed run_git_command
  cases hr : runner ["stash", "list"] with
  | spawnFail m => simp
  | ran out =>
    rw [hr] at hf
    obtain ⟨succ, sout, serr⟩ := out
    cases succ with
    | false => cases serr <;> simp
    | true => cases sout with
      | valid s => simp at hf
      | invalid => simp

/-! ## Claim C4 -/

/-- C4: loading the registry when the persisted file does not exist yields an
empty registry (zero projects) and is not an error; any other I/O failure of
the read is propagated as an error. -/
theorem load_missing_file_yields_empty_registry (msg : String) :
    DB.load_from_disk .notFound = .ok DB.new
      ∧ DB.new.projects = []
      ∧ DB.load_from_disk (.ioFail msg) = .err msg :=
  ⟨rfl, rfl, rfl⟩

/-! ## Claim C5 -/

/-- C5: `Git::checkout` on a handle whose checkout session is still open
(`checkout_rx` present) fails with the already-in-progress error and changes
nothing — in particular no command is enqueued to the worker; on a handle
with no open session it opens a fresh progress stream, enqueues the
`Checkout` command behind any queued commands, and returns success without
consuming any progress message. -/
theorem checkout_at_most_one_in_flight (p branch : String)
    (tx : Option (List GitCommand)) (chan : List GitResponse) (ct : Bool)
    (q : List GitCommand) :
    Git.checkout ⟨p, tx, some chan, ct⟩ branch =
        (⟨p, tx, some chan, ct⟩, some "checkout already in progress")
      ∧ Git.checkout ⟨p, some q, none, ct⟩ branch =
        (⟨p, some (q ++ [.CheckoutCmd branch]), some [], true⟩, none) :=
  ⟨rfl, rfl⟩

/-! ## Claim C8 -/

/-- C8: `Git::poll_checkout_status` returns `Ok(None)` immediately (leaving
the handle unchanged) when no session is open, so every subsequent poll also
returns `None` until a new checkout opens a session; receiving the terminal
`Done` or `Failed` clears the session (both channel halves), and receiving a
`Progress` message leaves the session open. -/
theorem poll_session_lifecycle (p : String) (tx : Option (List GitCommand))
    (ct : Bool) (rest : List GitResponse) (s : String) (e : GErr) :
    Git.poll_checkout_status ⟨p, tx, none, ct⟩ = some (⟨p, tx, none, ct⟩, none)
      ∧ Git.poll_checkout_status ⟨p, tx, some (.Checkout .Done :: rest), ct⟩ =
          some (⟨p, tx, none, false⟩, some .Done)
      ∧ Git.poll_checkout_status
            ⟨p, tx, some (.Checkout (.Failed e) :: rest), ct⟩ =
          some (⟨p, tx, none, false⟩, some (.Failed e))
      ∧ Git.poll_checkout_status
            ⟨p, tx, some (.Checkout (.Progress s) :: rest), ct⟩ =
          some (⟨p, tx, some rest, ct⟩, some (.Progress s)) :=
  ⟨rfl, rfl, rfl, rfl⟩

/-! ## Claim C7 (corrected) -/

/-- C7 counterexample: adding the path `p` twice via the `add_project`
operation, starting from the empty registry, leaves two projects with the
same path in the stored registry — path uniqueness does not hold. -/
theorem add_project_duplicate_path_cex :
    (add_project (add_project DB.new "p") "p").projects.map Project.path
        = ["p", "p"]
      ∧ ¬ ((add_project (add_project DB.new "p") "p").projects.map
          Project.path).Nodup := by
  constructor
  · rfl
  · decide

/-- C7 amended: `add_project` unconditionally appends the new project at the
end of the registry, with no uniqueness check, so adding a path that is
already registered yields a registry whose path list is no longer
duplicate-free. -/
theorem add_project_appends_no_dedup (db : DB) (path : String)
    (h : path ∈ db.projects.map Project.path) :
    (add_project db path).projects.map Project.path
        = db.projects.map Project.path ++ [path]
      ∧ ¬ ((add_project db path).projects.map Project.path).Nodup := by
  have h1 : (add_project db path).projects.map Project.path
      = db.projects.map Project.path ++ [path] := by
    simp [add_project, DB.add_project, Project.new]
  refine ⟨h1, ?_⟩
  rw [h1]
  intro hnd
  rcases List.nodup_append.mp hnd with ⟨-, -, hdisj⟩
  exact hdisj h (by simp)

theorem add_project_appends_no_dedup_witness :
    (add_project dbSingleP "p").projects.map Project.path
        = dbSingleP.projects.map Project.path ++ ["p"]
      ∧ ¬ ((add_project dbSingleP "p").projects.map Project.path).Nodup :=
  add_project_appends_no_dedup dbSingleP "p" (by decide)

/-! ## Claim C6 -/

/-- C6: project resolution on the canonicalized path returns the first
registered project (in registry order) whose stored path is a textual string
prefix of the canonicalized path — with no path-separator boundary check, so
the project at `/home/user/proj` also resolves for the canonicalized cwd
`/home/user/proj2`; when no registered path is a prefix it fails with the
not-found error. -/
theorem resolve_first_textual_prefix_match :
    (∀ (db : DB) (cp : String) (proj : Project),
        get_project_from_path db cp = .ok proj →
          prefixAt proj.path.toList cp.toList = true
            ∧ ∃ pre post, db.projects = pre ++ proj :: post
                ∧ ∀ q ∈ pre, prefixAt q.path.toList cp.toList = false)
      ∧ (∀ (db : DB) (cp : String),
          get_project_from_path db cp = .error "no project found in path"
            ↔ ∀ q ∈ db.projects, prefixAt q.path.toList cp.toList = false)
      ∧ get_project_from_path dbProj "/home/user/proj2"
          = .ok ⟨"/home/user/proj", []⟩
      ∧ get_project_from_path dbAB "/a/b/c/d" = .ok ⟨"/a/b", []⟩
      ∧ get_project_from_path dbAB "/x/y" = .error "no project found in path" := by
  refine ⟨?_, ?_, by decide, by decide, by decide⟩
  · intro db cp proj h
    unfold get_project_from_path at h
    cases hf : db.projects.find?
        (fun p => prefixAt p.path.toList cp.toList) with
    | none => rw [hf] at h; cases h
    | some q =>
      rw [hf] at h
      cases h
      obtain ⟨hp, pre, post, heq, hall⟩ := List.find?_eq_some.mp hf
      exact ⟨hp, pre, post, heq, fun a ha => by simpa using hall a ha⟩
  · intro db cp
    unfold get_project_from_path
    cases hf : db.projects.find?
        (fun p => prefixAt p.path.toList cp.toList) with
    | none =>
      refine ⟨fun _ q hq => ?_, fun _ => rfl⟩
      simpa using List.find?_eq_none.mp hf q hq
    | some q =>
      constructor
      · intro h; cases h
      · intro hall
        have hq := List.find?_some hf
        have hmem := List.mem_of_find?_eq_some hf
        rw [hall q hmem] at hq
        cases hq

theorem resolve_first_textual_prefix_match_witness :
    prefixAt (Project.path ⟨"/a/b", []⟩).toList "/a/b/c/d".toList = true
      ∧ ∃ pre post, dbAB.projects = pre ++ (⟨"/a/b", []⟩ : Project) :: post
          ∧ ∀ q ∈ pre, prefixAt q.path.toList "/a/b/c/d".toList = false :=
  resolve_first_textual_prefix_match.1 dbAB "/a/b/c/d" ⟨"/a/b", []⟩ (by decide)

/-! ## Claim C1 (corrected) -/

/-- C1 counterexample: on `runnerCheckoutFails` the `git checkout` step fails
after a successful stash, yet the sequence does not end — the worker goes on
to invoke `git stash pop`, and the terminal message observed by the caller is
`Done`, not `Failed`. -/
theorem failed_step_does_not_stop_sequence_cex :
    (GitWorker.checkout runnerCheckoutFails "dev").msgs =
        [.Progress "Saved working directory",
         .Failed (.gitFailed "pathspec error"), .Progress "popped", .Done]
      ∧ ["stash", "pop", "myref"]
          ∈ (GitWorker.checkout runnerCheckoutFails "dev").invoked
      ∧ (GitWorker.checkout runnerCheckoutFails "dev").msgs.getLast?
          = some .Done := by
  refine ⟨by decide, by decide, by decide⟩

/-- C1 amended: only a failure of the initial current-branch lookup ends the
sequence immediately with a single terminal `Failed` message; a failure of
the stash, checkout or pop step sends `Failed(error)` as a stream message but
the worker continues with the remaining steps, and whenever it does not
panic it finishes by sending `Done` — so after a checkout-step failure a
`stash pop` can still be issued and the terminal message is `Done`. -/
theorem failure_handling_in_checkout_sequence (runner : GitRunner)
    (branch : String) :
    (∀ e, get_current_branch runner = .error e →
        GitWorker.checkout runner branch
          = ⟨[.Failed e], [revParseArgs], false⟩)
      ∧ ((GitWorker.checkout runner branch).panicked = false →
          (GitWorker.checkout runner branch).msgs.getLast? = some .Done
            ∨ ∃ e, (GitWorker.checkout runner branch).msgs = [.Failed e]) := by
  constructor
  · intro e he
    simp [GitWorker.checkout, he]
  · intro hp
    cases hcb : get_current_branch runner with
    | error e =>
      right
      exact ⟨e, by simp [GitWorker.checkout, hcb]⟩
    | ok cur =>
      left
      cases hls : get_last_stashed runner branch with
      | none =>
        exfalso
        rw [show (GitWorker.checkout runner branch).panicked = true by
          simp [GitWorker.checkout, hcb, hls]] at hp
        cases hp
      | some o =>
        cases o with
        | none => simp [GitWorker.checkout, hcb, hls, List.getLast?]
        | some r => simp [GitWorker.checkout, hcb, hls, List.getLast?]

theorem failure_handling_in_checkout_sequence_witness :
    GitWorker.checkout runnerRevParseFails "dev"
        = ⟨[.Failed (.gitFailed "fatal: not a git repository")],
           [revParseArgs], false⟩
      ∧ ((GitWorker.checkout runnerRevParseFails "dev").msgs.getLast?
            = some .Done
          ∨ ∃ e, (GitWorker.checkout runnerRevParseFails "dev").msgs
              = [.Failed e]) :=
  ⟨(failure_handling_in_checkout_sequence runnerRevParseFails "dev").1
      (.gitFailed "fatal: not a git repository") (by decide),
   (failure_handling_in_checkout_sequence runnerRevParseFails "dev").2
      (by decide)⟩

/-! ## Claim C2 (corrected) -/

/-- C2 counterexample: on `runnerStaleStash` the current branch is `main`
and the target branch is `dev`; the stash list's first entry contains the
step-2 tag `lazy-git-checkout:main`, so under the claim step 4 would find
and pop it — but the code searches for `lazy-git-checkout:dev` (the target
branch), finds no entry, and invokes no `stash pop` at all. -/
theorem stash_search_uses_target_branch_cex :
    hasSub "lazy-git-checkout:main".toList
        "ref0: On main: lazy-git-checkout:main".toList = true
      ∧ get_last_stashed runnerStaleStash "dev" = some none
      ∧ get_last_stashed runnerStaleStash "main" = some (some "ref0")
      ∧ (GitWorker.checkout runnerStaleStash "dev").invoked =
          [revParseArgs, ["stash", "-m", "lazy-git-checkout:main"],
           ["checkout", "dev"], ["stash", "list"]] := by
  refine ⟨by decide, by decide, by decide, by decide⟩

/-- C2 amended: step 2 creates a stash whose message is exactly
`"lazy-git-checkout:<current-branch>"`, but step 4 searches the stash list
for the first-listed (newest) entry containing the tag of the **target**
branch, `"lazy-git-checkout:<target-branch>"` — not the tag from step 2 —
and pops the text before the first colon of that entry if one is found. -/
theorem stash_tagging_and_search (runner : GitRunner)
    (branch cur s : String) (se : Utf8Bytes)
    (hc : get_current_branch runner = .ok cur)
    (hl : runner ["stash", "list"] = .ran ⟨true, .valid s, se⟩) :
    (GitWorker.checkout runner branch).invoked[1]?
        = some ["stash", "-m", "lazy-git-checkout:" ++ cur]
      ∧ get_last_stashed runner branch =
          some (((splitChar '\n' s.toList).find?
              (fun l => hasSub ("lazy-git-checkout:" ++ branch).toList l)).map
            (fun l => String.mk ((splitChar ':' l).headD []))) := by
  have hgl : get_last_stashed runner branch =
      some (((splitChar '\n' s.toList).find?
          (fun l => hasSub ("lazy-git-checkout:" ++ branch).toList l)).map
        (fun l => String.mk ((splitChar ':' l).headD []))) := by
    unfold get_last_stashed
    rw [show run_git_command runner ["stash", "list"]
        = .ok ⟨true, .valid s, se⟩ by simp [run_git_command, hl]]
    simp only []
    rw [head?_filter_eq_find?]
    cases (splitChar '\n' s.toList).find?
        (fun l => hasSub ("lazy-git-checkout:" ++ branch).toList l) with
    | none => rfl
    | some l => rfl
  refine ⟨?_, hgl⟩
  cases hls : get_last_stashed runner branch with
  | none => simp [GitWorker.checkout, hc, hls]
  | some o => cases o <;> simp [GitWorker.checkout, hc, hls]

theorem stash_tagging_and_search_witness :
    (GitWorker.checkout runnerAllOk "dev").invoked[1]?
        = some ["stash", "-m", "lazy-git-checkout:" ++ "main"]
      ∧ get_last_stashed runnerAllOk "dev" =
          some (((splitChar '\n'
              "ref0: On main: lazy-git-checkout:dev\nref1: unrelated entry".toList).find?
              (fun l => hasSub ("lazy-git-checkout:" ++ "dev").toList l)).map
            (fun l => String.mk ((splitChar ':' l).headD []))) :=
  stash_tagging_and_search runnerAllOk "dev" "main"
    "ref0: On main: lazy-git-checkout:dev\nref1: unrelated entry" (.valid "")
    (by decide) (by decide)

/-! ## Claim C9 -/

/-- C9: for a checkout in which every git invocation succeeds, the message
order delivered on the progress stream is preserved: the initial stashing
notice, the stash-step output, the checkout-step output, then — only when a
matching stash entry was found — the pop-step output, then the terminal
`Done`. -/
theorem checkout_progress_order (runner : GitRunner)
    (branch cur s1 s2 : String) (e1 e2 : Utf8Bytes)
    (hc : get_current_branch runner = .ok cur)
    (h1 : runner ["stash", "-m", "lazy-git-checkout:" ++ cur]
        = .ran ⟨true, .valid s1, e1⟩)
    (h2 : runner ["checkout", branch] = .ran ⟨true, .valid s2, e2⟩) :
    (get_last_stashed runner branch = some none →
        (GitWorker.handleCheckout runner branch).msgs =
          [stashingMsg, .Progress s1, .Progress s2, .Done])
      ∧ (∀ r s3 e3, get_last_stashed runner branch = some (some r) →
          runner ["stash", "pop", r] = .ran ⟨true, .valid s3, e3⟩ →
          (GitWorker.handleCheckout runner branch).msgs =
            [stashingMsg, .Progress s1, .Progress s2, .Progress s3, .Done]) := by
  constructor
  · intro hls
    simp [GitWorker.handleCheckout, GitWorker.checkout, hc, hls,
      run_git_command, h1, h2, send_output_or_err]
  · intro r s3 e3 hls h3
    simp [GitWorker.handleCheckout, GitWorker.checkout, hc, hls,
      run_git_command, h1, h2, h3, send_output_or_err]

theorem checkout_progress_order_witness :
    (GitWorker.handleCheckout runnerAllOk "dev").msgs =
      [stashingMsg, .Progress "Saved working directory",
       .Progress "Switched to branch dev", .Progress "Dropped ref0", .Done] :=
  (checkout_progress_order runnerAllOk "dev" "main" "Saved working directory"
      "Switched to branch dev" (.valid "") (.valid "") (by decide) (by decide)
      (by decide)).2 "ref0" "Dropped ref0" (.valid "") (by decide) (by decide)

/-! ## Claim C10 -/

/-- C10: when step 4's `git stash list` invocation fails (spawn error or
non-zero exit) or its stdout is not valid UTF-8, the worker panics (the
`unwrap`s in `get_last_stashed`): the trace records the panic, exactly the
two step messages sent so far remain, and no terminal `Done` was emitted —
no `Failed` message is sent for this failure either. -/
theorem stash_list_failure_panics (runner : GitRunner) (branch cur : String)
    (hc : get_current_branch runner = .ok cur)
    (hf : stashListFails runner = true) :
    (GitWorker.checkout runner branch).panicked = true
      ∧ (GitWorker.checkout runner branch).msgs =
          [send_output_or_err (run_git_command runner
              ["stash", "-m", "lazy-git-checkout:" ++ cur]),
           send_output_or_err (run_git_command runner ["checkout", branch])]
      ∧ CheckoutStatus.Done ∉ (GitWorker.checkout runner branch).msgs := by
  have hnone := get_last_stashed_none_of_fails runner branch hf
  have hmsgs : (GitWorker.checkout runner branch).msgs =
      [send_output_or_err (run_git_command runner
          ["stash", "-m", "lazy-git-checkout:" ++ cur]),
       send_output_or_err (run_git_command runner ["checkout", branch])] := by
    simp [GitWorker.checkout, hc, hnone]
  refine ⟨by simp [GitWorker.checkout, hc, hnone], hmsgs, ?_⟩
  rw [hmsgs]
  intro hmem
  rcases List.mem_cons.mp hmem with h | h
  · exact send_output_or_err_ne_done _ h.symm
  · rcases List.mem_cons.mp h with h' | h'
    · exact send_output_or_err_ne_done _ h'.symm
    · cases h'

theorem stash_list_failure_panics_witness :
    (GitWorker.checkout runnerListFails "dev").panicked = true
      ∧ (GitWorker.checkout runnerListFails "dev").msgs =
          [send_output_or_err (run_git_command runnerListFails
              ["stash", "-m", "lazy-git-checkout:" ++ "main"]),
           send_output_or_err (run_git_command runnerListFails
              ["checkout", "dev"])]
      ∧ CheckoutStatus.Done ∉ (GitWorker.checkout runnerListFails "dev").msgs :=
  stash_list_failure_panics runnerListFails "dev" "main" (by decide) (by decide)

/-! ## Round-trip development for claim C3 -/

theorem prefixAt_append_self (l s : List Char) : prefixAt l (l ++ s) = true := by
  induction l with
  | nil => rfl
  | cons a t ih => simp [prefixAt, ih]

theorem dropPrefixAllFuel_stop (pat s : List Char)
    (h : prefixAt pat s = false) :
    ∀ fuel, dropPrefixAllFuel fuel pat s = s := by
  intro fuel
  cases fuel with
  | zero => rfl
  | succ n => simp [dropPrefixAllFuel, h]

theorem dropPrefixAll_append (c : Char) (pr s : List Char)
    (h : prefixAt (c :: pr) s = false) :
    dropPrefixAll (c :: pr) ((c :: pr) ++ s) = s := by
  unfold dropPrefixAll
  rw [show ((c :: pr) ++ s).length = (pr ++ s).length + 1 by simp]
  simp only [dropPrefixAllFuel, prefixAt_append_self, if_true, List.drop_left]
  exact dropPrefixAllFuel_stop _ _ h _

theorem stripCR_id (l : List Char) (h : l.getLast? ≠ some '\r') :
    stripCR l = l := by
  unfold stripCR
  cases hl : l.getLast? with
  | none => rfl
  | some c =>
    have hc : c ≠ '\r' := fun hcr => h (by rw [hl, hcr])
    simp [hc]

theorem splitChar_ne_nil (c : Char) (s : List Char) : splitChar c s ≠ [] := by
  cases s with
  | nil => simp [splitChar]
  | cons a rest =>
    simp only [splitChar]
    cases h : splitChar c rest with
    | nil => simp
    | cons l ls =>
      by_cases hac : a = c <;> simp [hac]

theorem splitChar_append (c : Char) (l rest : List Char) (h : c ∉ l) :
    splitChar c (l ++ c :: rest) = l :: splitChar c rest := by
  induction l with
  | nil =>
    simp only [List.nil_append, splitChar]
    cases hs : splitChar c rest with
    | nil => exact absurd hs (splitChar_ne_nil c rest)
    | cons x xs => simp
  | cons a t ih =>
    have ha : a ≠ c := fun hac => h (by simp [hac])
    have ht : c ∉ t := fun hct => h (by simp [hct])
    simp only [List.cons_append, splitChar, List.append_eq]
    rw [ih ht]
    simp [ha]

theorem splitChar_joinNl (L : List (List Char)) (h : ∀ l ∈ L, '\n' ∉ l) :
    splitChar '\n' (joinNl L) = L ++ [[]] := by
  induction L with
  | nil => rfl
  | cons l L' ih =>
    simp only [joinNl]
    rw [splitChar_append _ _ _ (h l (by simp)),
      ih (fun x hx => h x (by simp [hx]))]
    rfl

theorem map_stripCR_id (L : List (List Char))
    (h : ∀ l ∈ L, l.getLast? ≠ some '\r') : L.map stripCR = L := by
  induction L with
  | nil => rfl
  | cons l L' ih =>
    simp only [List.map_cons]
    rw [stripCR_id l (h l (by simp)), ih (fun x hx => h x (by simp [hx]))]

theorem rustLinesList_joinNl (L : List (List Char))
    (h : ∀ l ∈ L, '\n' ∉ l ∧ l.getLast? ≠ some '\r') :
    rustLinesList (joinNl L) = L := by
  cases L with
  | nil => rfl
  | cons l L' =>
    have hne : joinNl (l :: L') ≠ [] := by simp [joinNl]
    unfold rustLinesList
    rw [if_neg hne]
    simp only [joinNl] at *
    rw [splitChar_append _ _ _ ((h l (by simp)).1),
      splitChar_joinNl L' (fun x hx => (h x (by simp [hx])).1)]
    rw [show l :: (L' ++ [[]]) = (l :: L') ++ [[]] from rfl]
    rw [List.getLast?_concat]
    simp only [List.dropLast_concat]
    exact map_stripCR_id _ (fun x hx => (h x hx).2)

theorem joinNl_append (A B : List (List Char)) :
    joinNl (A ++ B) = joinNl A ++ joinNl B := by
  induction A with
  | nil => rfl
  | cons l A' ih => simp [joinNl, ih]

theorem branchChunk_eq (bs : List Branch) :
    branchChunk bs = joinNl (bs.map (fun b => b.name.toList)) := by
  induction bs with
  | nil => rfl
  | cons b bs' ih => simp [branchChunk, joinNl, ih]

theorem serializeProjects_eq (ps : List Project) :
    serializeProjects ps = joinNl (lineListChars ps) := by
  induction ps with
  | nil => rfl
  | cons p ps' ih =>
    simp [serializeProjects, lineListChars, joinNl, joinNl_append,
      projectChunk, branchChunk_eq, ih]

theorem addBranchAux_last (ps : List Project) (path b : String)
    (acc : List Branch) (h : path ∉ ps.map Project.path) :
    addBranchAux (ps ++ [⟨path, acc⟩]) path b
      = some (ps ++ [⟨path, acc ++ [⟨b⟩]⟩]) := by
  induction ps with
  | nil => simp [addBranchAux, Project.add_branch]
  | cons p ps' ih =>
    have hne : p.path ≠ path := fun he => h (by simp [← he])
    have h' : path ∉ ps'.map Project.path := fun hm => h (by simp [hm])
    simp [addBranchAux, hne, ih h']

theorem lineListChars_good (ps : List Project)
    (hg : ∀ p ∈ ps, goodPath p.path ∧ ∀ b ∈ p.branches, goodName b.name) :
    ∀ l ∈ lineListChars ps, '\n' ∉ l ∧ l.getLast? ≠ some '\r' := by
  induction ps with
  | nil => simp [lineListChars]
  | cons p ps' ih =>
    intro l hl
    simp only [lineListChars, List.mem_cons, List.mem_append] at hl
    rcases hl with hl | hl | hl
    · obtain ⟨⟨hne, hnl, hcr, -⟩, -⟩ := hg p (by simp)
      subst hl
      constructor
      · intro hmem
        rcases List.mem_append.mp hmem with hd | hp
        · revert hd; decide
        · exact hnl hp
      · rw [List.getLast?_append]
        cases hpl : p.path.toList.getLast? with
        | none =>
          exact absurd (List.getLast?_eq_none_iff.mp hpl) hne
        | some y =>
          have hy : y ≠ '\r' := fun hyr => hcr (by rw [hpl, hyr])
          simp [hy]
    · obtain ⟨b, hb, rfl⟩ := List.mem_map.mp hl
      obtain ⟨-, hbs⟩ := hg p (by simp)
      obtain ⟨hnl, hcr, -⟩ := hbs b hb
      exact ⟨hnl, hcr⟩
    · exact ih (fun q hq => hg q (by simp [hq])) l hl

theorem loadLoop_branches (bs : List Branch) (restLines : List (List Char))
    (pre : List Project) (path : String) (acc : List Branch)
    (hpath : path.toList ≠ [])
    (hb : ∀ b ∈ bs, prefixAt delimChars b.name.toList = false)
    (hnotin : path ∉ pre.map Project.path) :
    loadLoop (bs.map (fun b => b.name.toList) ++ restLines) path.toList
        ⟨pre ++ [⟨path, acc⟩]⟩
      = loadLoop restLines path.toList ⟨pre ++ [⟨path, acc ++ bs⟩]⟩ := by
  induction bs generalizing acc with
  | nil => simp
  | cons b bs' ih =>
    have hb1 : prefixAt delimChars b.name.data = false := hb b (by simp)
    simp only [List.map_cons, List.cons_append, loadLoop]
    rw [if_neg (by simp [hb1])]
    rw [if_pos hpath]
    rw [show String.mk path.toList = path from rfl,
      show String.mk b.name.toList = b.name from rfl]
    rw [show DB.addBranchFirst ⟨pre ++ [⟨path, acc⟩]⟩ path b.name
        = some ⟨pre ++ [⟨path, acc ++ [⟨b.name⟩]⟩]⟩ from by
      simp [DB.addBranchFirst, addBranchAux_last pre path b.name acc hnotin]]
    rw [show (⟨b.name⟩ : Branch) = b from rfl]
    simp only [List.append_eq]
    rw [ih (acc ++ [b]) (fun x hx => hb x (by simp [hx]))]
    simp

theorem loadLoop_main (rest : List Project) (pre : List Project)
    (cur : List Char)
    (hg : ∀ p ∈ rest, goodPath p.path ∧ ∀ b ∈ p.branches, goodName b.name)
    (hdisj : ∀ p ∈ rest, p.path ∉ pre.map Project.path)
    (hnd : (rest.map Project.path).Nodup) :
    loadLoop (lineListChars rest) cur ⟨pre⟩ = some ⟨pre ++ rest⟩ := by
  induction rest generalizing pre cur with
  | nil => simp [lineListChars, loadLoop]
  | cons p rest' ih =>
    obtain ⟨⟨hpne, hpnl, hpcr, hpdelim⟩, hbs⟩ := hg p (by simp)
    simp only [lineListChars, loadLoop]
    rw [if_pos (by rw [prefixAt_append_self])]
    rw [show dropPrefixAll delimChars (delimChars ++ p.path.toList)
        = p.path.toList from
      dropPrefixAll_append ';' [';', ';', ';'] p.path.toList hpdelim]
    rw [show (⟨pre⟩ : DB).add_project (Project.new (String.mk p.path.toList))
        = ⟨pre ++ [⟨p.path, []⟩]⟩ from rfl]
    rw [loadLoop_branches p.branches (lineListChars rest') pre p.path []
      hpne (fun b hb => (hbs b hb).2.2) (hdisj p (by simp))]
    rw [show (⟨p.path, [] ++ p.branches⟩ : Project) = p from by
      cases p; rfl]
    have hdisj' : ∀ q ∈ rest', q.path ∉ (pre ++ [p]).map Project.path := by
      intro q hq
      rw [List.map_append, List.mem_append]
      intro hmem
      rcases hmem with hm | hm
      · exact hdisj q (by simp [hq]) hm
      · simp only [List.map_cons, List.map_nil, List.mem_singleton] at hm
        have hpnotin : p.path ∉ rest'.map Project.path :=
          (List.nodup_cons.mp (by simpa using hnd)).1
        exact hpnotin (hm ▸ List.mem_map_of_mem Project.path hq)
    rw [ih (pre ++ [p]) p.path.toList
      (fun q hq => hg q (by simp [hq])) hdisj'
      (List.nodup_cons.mp (by simpa using hnd)).2]
    simp

/-! ## Claim C3 (corrected) -/

/-- C3 counterexample: a registry (N = 1 project, M = 1 branch) whose branch
name `";;;;x"` begins with the project-path delimiter does not survive the
save/load round trip — the loader misparses the branch line as a new project
header, yielding two branch-less projects `p` and `x`. -/
theorem save_load_roundtrip_cex :
    DB.load_from_disk (.found dbDelimBranch.write_to_disk)
        = .ok ⟨[⟨"p", []⟩, ⟨"x", []⟩]⟩
      ∧ DB.load_from_disk (.found dbDelimBranch.write_to_disk)
        ≠ .ok dbDelimBranch :=
  ⟨by decide, by decide⟩

/-- C3 amended: for every registry whose project paths are non-empty,
pairwise distinct, free of embedded newlines and trailing carriage returns
and do not begin with the delimiter token, and whose branch names are free
of embedded newlines and trailing carriage returns and do not begin with the
delimiter token, saving the registry to disk and then loading it yields an
equal registry: same projects in the same order, each with the same branches
in the same order.  (Without these well-formedness conditions the line
oriented format cannot represent the registry and the round trip fails.) -/
theorem save_load_roundtrip (db : DB) (h : goodDB db) :
    DB.load_from_disk (.found db.write_to_disk) = .ok db := by
  obtain ⟨hg, hnd⟩ := h
  have hlines : rustLinesList (db.write_to_disk).toList
      = lineListChars db.projects := by
    rw [show (db.write_to_disk).toList = serializeProjects db.projects
      from rfl, serializeProjects_eq]
    exact rustLinesList_joinNl _ (lineListChars_good db.projects hg)
  show (match loadLoop (rustLinesList (db.write_to_disk).toList) [] DB.new with
    | some d => LoadResult.ok d
    | none => LoadResult.panicked) = LoadResult.ok db
  rw [hlines, show DB.new = (⟨[]⟩ : DB) from rfl]
  rw [loadLoop_main db.projects [] [] hg
    (fun p _ hm => absurd hm (List.not_mem_nil _)) hnd]
  rfl

theorem save_load_roundtrip_witness :
    DB.load_from_disk (.found dbTwoTwo.write_to_disk) = .ok dbTwoTwo :=
  save_load_roundtrip dbTwoTwo (by decide)
